import Mathlib

set_option maxHeartbeats 1000000

/-!
Verification of the annotated Tornado `iostream.py` of this repository.

Byte strings are modelled as `List Nat` and the chunk deques
(`collections.deque` of byte strings) as `List (List Nat)`, with the front of
the deque at the head of the list.  Callbacks are modelled by presence flags
plus ghost fields that record the payloads handed to them; scheduling a
callback through `_run_callback` increments `pending_callbacks`, exactly as in
the source.  All referenced line numbers are those of `iostream.py`.
-/

/-- Body of the `while deque and remaining > 0` loop of `_merge_prefix`
(iostream.py lines 610-616).  Returns the accumulated `prefix` list of popped
(and possibly split) chunks together with the remaining deque. -/
def mergePrefixLoop : List (List Nat) → Nat → List (List Nat) × List (List Nat)
  | [], _ => ([], [])
  | c :: rest, r =>
    if r = 0 then ([], c :: rest)
    else if r < c.length then
      ([c.take r], c.drop r :: rest)
    else
      let p := mergePrefixLoop rest (r - c.length)
      (c :: p.1, p.2)

/-- Model of `_merge_prefix(deque, size)` (iostream.py lines 589-623): replace
the first entries of the deque by a single chunk of up to `size` bytes,
splitting chunks as necessary; push an empty chunk if the deque was empty. -/
def _merge_prefix (deque : List (List Nat)) (size : Nat) : List (List Nat) :=
  if deque.length = 1 ∧ (deque.headD []).length ≤ size then deque
  else if (mergePrefixLoop deque size).1 = [] then
    if (mergePrefixLoop deque size).2 = [] then [[]]
    else (mergePrefixLoop deque size).2
  else (mergePrefixLoop deque size).1.flatten :: (mergePrefixLoop deque size).2

/-- Model of `_double_prefix(deque)` (iostream.py lines 583-586): grow the
first chunk by doubling, without splitting the second chunk just because the
first one is small. -/
def _double_prefix (deque : List (List Nat)) : List (List Nat) :=
  _merge_prefix deque
    (max ((deque.headD []).length * 2)
      ((deque.headD []).length + (deque.tail.headD []).length))

/-- Model of Python's `bytes.find` as used on line 350: index of the first
occurrence of `d` as a contiguous sub-list of `hay` (`some loc`), or `none`
(`-1` in Python). -/
def findSub : List Nat → List Nat → Option Nat
  | [], d => if d = [] then some 0 else none
  | a :: t, d =>
    if (a :: t).take d.length = d then some 0
    else (findSub t d).map (· + 1)

/-- The byte string `d` occurs inside `hay` at position `p`. -/
def occursAt (hay d : List Nat) (p : Nat) : Prop :=
  p + d.length ≤ hay.length ∧ (hay.drop p).take d.length = d

instance (hay d : List Nat) (p : Nat) : Decidable (occursAt hay d p) := by
  unfold occursAt; exact inferInstance

/-- Number of positions of `hay` at which `d` occurs. -/
def countOccur (hay d : List Nat) : Nat :=
  ((List.range (hay.length + 1)).filter (fun p => decide (occursAt hay d p))).length

/-- The `while True` search loop of the delimiter branch of
`_read_from_buffer` (iostream.py lines 349-361): search the first chunk for
the delimiter, merging front chunks with `_double_prefix` until either the
delimiter is found (`some loc`) or a single chunk remains.  `fuel` bounds the
number of merges; `buf.length` is always sufficient, because every merge of a
deque of non-empty chunks shortens the deque (the source would loop forever on
a deque of several empty chunks, which is unreachable there). -/
def readUntilLoop (d : List Nat) : Nat → List (List Nat) → Option Nat × List (List Nat)
  | _, [] => (none, [])
  | fuel, h :: t =>
    match findSub h d with
    | some loc => (some loc, h :: t)
    | none =>
      if t = [] then (none, h :: t)
      else
        match fuel with
        | 0 => (none, h :: t)
        | fuel' + 1 => readUntilLoop d fuel' ( _double_prefix (h :: t))

/-- Read-side state of an `IOStream` (iostream.py lines 38-61).  Callback
slots are tracked as booleans; `streamed` and `completed` are ghost fields
recording the payloads passed to the streaming and read callbacks.  The
`_read_regex` mode (lines 45, 76-80, 362-375) is not modelled. -/
structure ReadState where
  read_buffer : List (List Nat)
  read_buffer_size : Nat
  read_delimiter : Option (List Nat)
  read_bytes : Option Nat
  read_until_close : Bool
  read_cb : Bool
  streaming_cb : Bool
  pending_callbacks : Nat
  streamed : List (List Nat)
  completed : Option (List Nat)
deriving DecidableEq

/-- Model of `_consume(loc)` (iostream.py lines 424-430): returns the consumed
bytes and the updated state. -/
def _consume (s : ReadState) (loc : Nat) : List Nat × ReadState :=
  if loc = 0 then ([], s)
  else
    let m := _merge_prefix s.read_buffer loc
    (m.headD [], { s with read_buffer := m.tail,
                          read_buffer_size := s.read_buffer_size - loc })

/-- Guard of the exact-count completion branch (iostream.py line 338):
`self._read_bytes is not None and self._read_buffer_size >= self._read_bytes`. -/
def bytesReady (s : ReadState) : Bool :=
  match s.read_bytes with
  | some rb => decide (s.read_buffer_size ≥ rb)
  | none => false

/-- The streaming branch of `_read_from_buffer` (iostream.py lines 323-331):
if a streaming callback is installed and bytes are buffered, hand the
available bytes (capped to the exact-count remainder) to it. -/
def streamingBranch (s : ReadState) : ReadState :=
  if s.streaming_cb = true ∧ s.read_buffer_size ≠ 0 then
    let btc :=
      match s.read_bytes with
      | some rb => min rb s.read_buffer_size
      | none => s.read_buffer_size
    let s1 := { s with read_bytes := s.read_bytes.map (fun rb => rb - btc) }
    let pr := _consume s1 btc
    { pr.2 with pending_callbacks := pr.2.pending_callbacks + 1,
                streamed := pr.2.streamed ++ [pr.1] }
  else s

/-- Model of `_read_from_buffer` (iostream.py lines 319-376).  Returns the
new state and whether the armed read was satisfied.  The regex branch
(lines 362-375) is not modelled; the delimiter branch is lines 347-361. -/
def read_from_buffer (s : ReadState) : ReadState × Bool :=
  let s := streamingBranch s
  if bytesReady s = true then
    let rb := s.read_bytes.getD 0
    let pr := _consume s rb
    ({ pr.2 with read_cb := false, streaming_cb := false, read_bytes := none,
                 pending_callbacks := pr.2.pending_callbacks + 1,
                 completed := some pr.1 }, true)
  else
    match s.read_delimiter with
    | some delim =>
      if s.read_buffer = [] then (s, false)
      else
        let lr := readUntilLoop delim s.read_buffer.length s.read_buffer
        match lr.1 with
        | some loc =>
          let s2 := { s with read_buffer := lr.2 }
          let pr := _consume s2 (loc + delim.length)
          ({ pr.2 with read_cb := false, streaming_cb := false,
                       read_delimiter := none,
                       pending_callbacks := pr.2.pending_callbacks + 1,
                       completed := some pr.1 }, true)
        | none => ({ s with read_buffer := lr.2 }, false)
    | none => (s, false)

/-- Appending one chunk received from the socket to the read buffer
(iostream.py lines 311-312). -/
def drainAppend (rs : ReadState) (c : List Nat) : ReadState :=
  { rs with read_buffer := rs.read_buffer ++ [c],
            read_buffer_size := rs.read_buffer_size + c.length }

/-- Events observable by an armed read: a chunk arriving from the socket
(appended by `_read_to_buffer`), or a `_read_from_buffer` dispatch attempt
(from `_handle_read` or `_try_inline_read`). -/
inductive ReadOp where
  | arrive (chunk : List Nat)
  | dispatch
deriving DecidableEq

def readStep (s : ReadState) : ReadOp → ReadState
  | .arrive c => drainAppend s c
  | .dispatch => (read_from_buffer s).1

def runRead (s : ReadState) (ops : List ReadOp) : ReadState :=
  ops.foldl readStep s

/-- Concatenation of all bytes delivered by the `arrive` events of `ops`. -/
def arrivedBytes (ops : List ReadOp) : List Nat :=
  (ops.map fun o => match o with | .arrive c => c | .dispatch => ([] : List Nat)).flatten

/-- State right after `read_until(delimiter, callback)` records the delimiter
mode (iostream.py lines 82-86), before any dispatch, over an initial buffer
`B0`. -/
def arm_read_until (B0 : List (List Nat)) (d : List Nat) : ReadState :=
  { read_buffer := B0, read_buffer_size := B0.flatten.length,
    read_delimiter := some d, read_bytes := none, read_until_close := false,
    read_cb := true, streaming_cb := false, pending_callbacks := 0,
    streamed := [], completed := none }

/-- State right after `read_bytes(n, callback, streaming_callback)` arms the
exact-count mode with a streaming callback (iostream.py lines 88-95). -/
def arm_read_bytes (n : Nat) : ReadState :=
  { read_buffer := [], read_buffer_size := 0,
    read_delimiter := none, read_bytes := some n, read_until_close := false,
    read_cb := true, streaming_cb := true, pending_callbacks := 0,
    streamed := [], completed := none }

/-- Interest mask registered with the IOLoop (READ / WRITE / ERROR bits). -/
structure IOMask where
  rd : Bool
  wr : Bool
  er : Bool
deriving DecidableEq

def maskOr (a b : IOMask) : IOMask := ⟨a.rd || b.rd, a.wr || b.wr, a.er || b.er⟩

def maskAnd (a b : IOMask) : IOMask := ⟨a.rd && b.rd, a.wr && b.wr, a.er && b.er⟩

def READ_MASK : IOMask := ⟨true, false, false⟩

def WRITE_MASK : IOMask := ⟨false, true, false⟩

def ERROR_MASK : IOMask := ⟨false, false, true⟩

/-- Model of `_add_io_state(state)` (iostream.py lines 443-454) acting on the
registration mask `cur` (`self._state`, `none` when unregistered). -/
def add_io_state (socket_open : Bool) (cur : Option IOMask) (extra : IOMask) :
    Option IOMask :=
  if socket_open = false then cur
  else
    match cur with
    | none => some (maskOr ERROR_MASK extra)
    | some m =>
      if maskAnd m extra = ⟨false, false, false⟩ then some (maskOr m extra)
      else some m

/-- Read-side stream state together with the socket flag and the registration
mask, as needed by `_try_inline_read` and `_maybe_add_error_listener`. -/
structure InlineState where
  socket_open : Bool
  state : Option IOMask
  rs : ReadState
deriving DecidableEq

/-- Model of `_maybe_add_error_listener` (iostream.py lines 436-441).  In the
closed branch the source calls `_maybe_run_close_callback`, which never
touches the registration mask; close-callback bookkeeping is modelled
separately by `CloseState`. -/
def maybe_add_error_listener (s : InlineState) : InlineState :=
  if s.state = none ∧ s.rs.pending_callbacks = 0 then
    if s.socket_open = false then s
    else { s with state := add_io_state s.socket_open s.state READ_MASK }
  else s

/-- Model of `_try_inline_read` (iostream.py lines 261-281).  `sock` lists the
chunks the socket delivers before returning EWOULDBLOCK, so the drain loop of
lines 271-274 appends them all; EOF, socket errors and the overflow check of
`_read_to_buffer` are not exercised by runs of this model (the
`pending_callbacks` guard around the drain is +1 then -1, a net no-op here). -/
def _try_inline_read (s : InlineState) (sock : List (List Nat)) : InlineState :=
  let r1 := read_from_buffer s.rs
  if r1.2 then { s with rs := r1.1 }
  else if s.socket_open = false then { s with rs := r1.1 }
  else
    let drained := sock.foldl drainAppend r1.1
    let r2 := read_from_buffer drained
    if r2.2 then { s with rs := r2.1 }
    else maybe_add_error_listener { s with rs := r2.1 }

/-- Model of `read_until(delimiter, callback)` (iostream.py lines 82-86). -/
def read_until (s : InlineState) (delimiter : List Nat) (sock : List (List Nat)) :
    InlineState :=
  _try_inline_read
    { s with rs := { s.rs with read_cb := true, read_delimiter := some delimiter } }
    sock

/-- Model of `read_bytes(num_bytes, callback, streaming_callback)`
(iostream.py lines 88-95): record the exact-count mode and the optional
streaming callback, then attempt the inline read. -/
def read_bytes (s : InlineState) (num_bytes : Nat) (hasStreaming : Bool)
    (sock : List (List Nat)) : InlineState :=
  _try_inline_read
    { s with rs := { s.rs with
        read_cb := true,
        read_bytes := some num_bytes,
        streaming_cb := hasStreaming } }
    sock

/-- Model of `read_until_close(callback, streaming_callback)` (iostream.py
lines 97-111).  On an already-closed stream (lines 102-108) the whole buffer
is consumed for the streaming callback (if any) and the *updated*
`_read_buffer_size` is consumed for the read callback; otherwise the
until-close mode is stored and READ interest registered (lines 109-111). -/
def read_until_close (s : InlineState) (hasStreaming : Bool) : InlineState :=
  let rs0 := { s.rs with read_cb := true, streaming_cb := hasStreaming }
  if s.socket_open = false then
    let rs1 :=
      if rs0.streaming_cb then
        let pr := _consume rs0 rs0.read_buffer_size
        { pr.2 with pending_callbacks := pr.2.pending_callbacks + 1,
                    streamed := pr.2.streamed ++ [pr.1] }
      else rs0
    let pr2 := _consume rs1 rs1.read_buffer_size
    { s with rs := { pr2.2 with pending_callbacks := pr2.2.pending_callbacks + 1,
                                completed := some pr2.1,
                                streaming_cb := false, read_cb := false } }
  else
    { s with rs := { rs0 with read_until_close := true },
             state := add_io_state s.socket_open s.state READ_MASK }

/-- Result of one `_read_to_buffer` call (iostream.py lines 301-317). -/
structure RTBResult where
  read_buffer : List (List Nat)
  read_buffer_size : Nat
  bytes_read : Nat
  closed : Bool
  raised : Bool
deriving DecidableEq

/-- Model of `_read_to_buffer` (iostream.py lines 301-317).  The `chunk`
argument is the value returned by `_read_from_socket`; `none` models no data
(EWOULDBLOCK / EAGAIN, or remote EOF already handled inside
`_read_from_socket`).  On overflow the stream is closed and an IOError is
raised (`raised`). -/
def _read_to_buffer (max_buffer_size : Nat) (buf : List (List Nat)) (size : Nat) :
    Option (List Nat) → RTBResult
  | none => ⟨buf, size, 0, false, false⟩
  | some chunk =>
    if size + chunk.length ≥ max_buffer_size then
      ⟨buf ++ [chunk], size + chunk.length, chunk.length, true, true⟩
    else
      ⟨buf ++ [chunk], size + chunk.length, chunk.length, false, false⟩

def WRITE_BUFFER_CHUNK_SIZE : Nat := 128 * 1024

/-- Splitting of oversized write data into 128 KiB pieces (iostream.py lines
121-123); structural on a fuel argument, with `data.length` always enough. -/
def splitChunksFuel : Nat → List Nat → List (List Nat)
  | _, [] => []
  | 0, l => [l]
  | fuel + 1, l =>
    l.take WRITE_BUFFER_CHUNK_SIZE :: splitChunksFuel fuel (l.drop WRITE_BUFFER_CHUNK_SIZE)

/-- The chunks appended to the write buffer for the data of one `write` call
(iostream.py lines 119-125). -/
def chunkData (data : List Nat) : List (List Nat) :=
  if data.length > WRITE_BUFFER_CHUNK_SIZE then splitChunksFuel data.length data
  else [data]

/-- Outcome of one `socket.send` call in `_handle_write`. -/
inductive SendResult where
  | sent (n : Nat)
  | wouldblock
  | sockErr
deriving DecidableEq

/-- Write-side stream state.  `write_completed` is a ghost flag recording that
the write callback was scheduled. -/
structure WriteState where
  socket_open : Bool
  connecting : Bool
  write_buffer : List (List Nat)
  write_buffer_frozen : Bool
  write_cb : Bool
  state : Option IOMask
  pending_callbacks : Nat
  write_completed : Bool
deriving DecidableEq

/-- The chunk submitted to `socket.send` by one iteration of `_handle_write`
(iostream.py lines 397-401): the first write-buffer chunk, merged to at most
128 KiB unless the buffer is frozen. -/
def submitChunk (s : WriteState) : List Nat :=
  (if s.write_buffer_frozen then s.write_buffer
   else _merge_prefix s.write_buffer WRITE_BUFFER_CHUNK_SIZE).headD []

/-- One iteration of the `while self._write_buffer` loop of `_handle_write`
(iostream.py lines 395-418), entered with a non-empty write buffer; `r` is the
outcome of the `send` call.  Returns the new state and whether the loop
continues. -/
def handle_write_step (s : WriteState) (r : SendResult) : WriteState × Bool :=
  let m := if ¬ s.write_buffer_frozen then _merge_prefix s.write_buffer WRITE_BUFFER_CHUNK_SIZE
           else s.write_buffer
  match r with
  | .sent 0 => ({ s with write_buffer := m, write_buffer_frozen := true }, false)
  | .sent n =>
    ({ s with write_buffer := ( _merge_prefix m n).tail, write_buffer_frozen := false }, true)
  | .wouldblock => ({ s with write_buffer := m, write_buffer_frozen := true }, false)
  | .sockErr => ({ s with write_buffer := m, socket_open := false }, false)

/-- The `while self._write_buffer` loop of `_handle_write`, consuming one
send outcome per iteration. -/
def handle_write_loop (s : WriteState) : List SendResult → WriteState
  | [] => s
  | r :: rs =>
    if s.write_buffer = [] then s
    else
      let p := handle_write_step s r
      if p.2 then handle_write_loop p.1 rs else p.1

/-- Model of `_handle_write` (iostream.py lines 394-422): the send loop
followed by scheduling the write callback once the buffer has drained. -/
def _handle_write (s : WriteState) (sends : List SendResult) : WriteState :=
  let s := handle_write_loop s sends
  if s.write_buffer = [] ∧ s.write_cb = true then
    { s with write_cb := false, write_completed := true,
             pending_callbacks := s.pending_callbacks + 1 }
  else s

/-- `_maybe_add_error_listener` (iostream.py lines 436-441) on the write-side
state. -/
def maybe_add_error_listener_w (s : WriteState) : WriteState :=
  if s.state = none ∧ s.pending_callbacks = 0 then
    if s.socket_open = false then s
    else { s with state := add_io_state s.socket_open s.state READ_MASK }
  else s

/-- Model of `write(data, callback)` (iostream.py lines 113-131).  `none`
models the IOError of `_check_closed`; `sends` lists the outcomes of the
`send` calls the socket would produce. -/
def write (s : WriteState) (data : List Nat) (hasCb : Bool)
    (sends : List SendResult) : Option WriteState :=
  if s.socket_open = false then none
  else
    let s := if data ≠ [] then { s with write_buffer := s.write_buffer ++ chunkData data }
             else s
    let s := { s with write_cb := hasCb }
    if s.connecting = false then
      let s := _handle_write s sends
      let s := if s.write_buffer ≠ [] then { s with state := add_io_state s.socket_open s.state WRITE_MASK }
               else s
      some (maybe_add_error_listener_w s)
    else some s

/-- State relevant to the close callback: `fired` counts how many times the
close callback has been scheduled. -/
structure CloseState where
  socket_open : Bool
  close_cb : Bool
  pending_callbacks : Nat
  fired : Nat
deriving DecidableEq

/-- Model of `_maybe_run_close_callback` (iostream.py lines 154-159): fire the
close callback only when the socket is gone, a callback is installed and no
callbacks are pending; the slot is cleared before the callback is scheduled
through `_run_callback` (which bumps `pending_callbacks`). -/
def maybe_run_close_callback (s : CloseState) : CloseState :=
  if s.socket_open = false ∧ s.close_cb = true ∧ s.pending_callbacks = 0 then
    { s with close_cb := false, fired := s.fired + 1,
             pending_callbacks := s.pending_callbacks + 1 }
  else s

/-- Operations that touch the close-callback machinery: `close()` (lines
137-152), scheduling any callback through `_run_callback` (line 232), and the
wrapper of a scheduled callback running (lines 215-223, which decrements the
counter and may reach `_maybe_run_close_callback` through
`_maybe_add_error_listener`).  `maybeRun` over-approximates any other call of
`_maybe_run_close_callback`. -/
inductive CloseOp where
  | close
  | schedule
  | runWrapper
  | maybeRun
deriving DecidableEq

def closeStep (s : CloseState) : CloseOp → CloseState
  | .close => maybe_run_close_callback { s with socket_open := false }
  | .schedule => { s with pending_callbacks := s.pending_callbacks + 1 }
  | .runWrapper =>
    maybe_run_close_callback
      (if s.pending_callbacks = 0 then s
       else { s with pending_callbacks := s.pending_callbacks - 1 })
  | .maybeRun => maybe_run_close_callback s

def runClose (s : CloseState) (ops : List CloseOp) : CloseState :=
  ops.foldl closeStep s

/-- A freshly created stream with a close callback installed. -/
def initCloseState : CloseState := ⟨true, true, 0, 0⟩

/-- Outcome of one `do_handshake` attempt (iostream.py lines 492-514). -/
inductive HandshakeOutcome where
  | success
  | wantRead
  | wantWrite
  | eofError
  | sslError
  | connReset
deriving DecidableEq

/-- SSL-overlay state (iostream.py lines 476-479).  `connect_cb_scheduled` is
a ghost flag recording that the stashed user connect callback was handed to
`_run_callback`. -/
structure SSLState where
  ssl_accepting : Bool
  handshake_reading : Bool
  handshake_writing : Bool
  ssl_connect_callback : Bool
  socket_open : Bool
  connect_cb_scheduled : Bool
deriving DecidableEq

/-- Model of `_do_ssl_handshake` (iostream.py lines 487-520): clear both
handshake flags, attempt the handshake, and react to its outcome. -/
def do_ssl_handshake (s : SSLState) (o : HandshakeOutcome) : SSLState :=
  let s := { s with handshake_reading := false, handshake_writing := false }
  match o with
  | .wantRead => { s with handshake_reading := true }
  | .wantWrite => { s with handshake_writing := true }
  | .eofError => { s with socket_open := false }
  | .sslError => { s with socket_open := false }
  | .connReset => { s with socket_open := false }
  | .success =>
    if s.ssl_connect_callback then
      { s with ssl_accepting := false, ssl_connect_callback := false,
               connect_cb_scheduled := true }
    else { s with ssl_accepting := false }

def runHandshake (s : SSLState) (outs : List HandshakeOutcome) : SSLState :=
  outs.foldl do_ssl_handshake s

/-- An SSL stream right after `connect` stashed the user callback: handshake
not yet finished, callback stashed, nothing scheduled. -/
def initSSLState : SSLState := ⟨true, false, false, true, true, false⟩

/-- Invariant of a `read_until` run: before completion the delimiter mode is
armed and the buffer holds exactly the bytes `total` seen since arming; after
completion the payload `P` ends in its only occurrence of the delimiter,
placed at the first occurrence of the delimiter in `total`, and the residue
stays buffered. -/
def DelimInv (d : List Nat) (total : List Nat) (s : ReadState) : Prop :=
  s.read_bytes = none ∧ s.streaming_cb = false ∧
  ((s.completed = none ∧ s.read_delimiter = some d ∧ s.read_buffer.flatten = total) ∨
   (∃ P, s.completed = some P ∧ s.read_delimiter = none ∧
     List.IsSuffix d P ∧ d.length ≤ P.length ∧
     (∀ p, occursAt P d p ↔ p = P.length - d.length) ∧
     P ++ s.read_buffer.flatten = total ∧
     findSub total d = some (P.length - d.length)))

/-- Invariant of a `read_bytes(n, done, streaming)` run: the size counter
matches the buffer, and either the read is still armed with `r` bytes missing
out of `n`, or it completed with an empty payload after streaming exactly `n`
bytes. -/
def BytesInv (n : Nat) (s : ReadState) : Prop :=
  s.read_buffer_size = s.read_buffer.flatten.length ∧
  s.read_delimiter = none ∧
  (∀ c ∈ s.streamed, c.length ≤ n) ∧
  ((s.completed = none ∧ s.streaming_cb = true ∧
      ∃ r, s.read_bytes = some r ∧ s.streamed.flatten.length + r = n) ∨
   (s.completed = some [] ∧ s.read_bytes = none ∧ s.streaming_cb = false ∧
      s.streamed.flatten.length = n))


theorem mergePrefixLoop_flatten (dq : List (List Nat)) :
    ∀ r, (mergePrefixLoop dq r).1.flatten ++ (mergePrefixLoop dq r).2.flatten = dq.flatten := by
  induction dq with
  | nil => intro r; simp [mergePrefixLoop]
  | cons c rest ih =>
    intro r
    simp only [mergePrefixLoop]
    by_cases h0 : r = 0
    · simp [h0]
    · simp only [h0, if_false]
      by_cases h1 : r < c.length
      · simp only [h1, if_true, List.flatten_cons, List.flatten]
        rw [List.append_nil, ← List.append_assoc, List.take_append_drop]
      · simp only [h1, if_false, List.flatten_cons]
        rw [List.append_assoc, ih (r - c.length)]

theorem mergePrefixLoop_len (dq : List (List Nat)) :
    ∀ r, (mergePrefixLoop dq r).1.flatten.length = min r dq.flatten.length := by
  induction dq with
  | nil => intro r; simp [mergePrefixLoop]
  | cons c rest ih =>
    intro r
    simp only [mergePrefixLoop]
    by_cases h0 : r = 0
    · simp [h0]
    · simp only [h0, if_false]
      by_cases h1 : r < c.length
      · simp only [h1, if_true, List.flatten_cons, List.flatten]
        simp only [List.append_nil, List.length_take, List.flatten_cons, List.length_append]
        omega
      · simp only [h1, if_false, List.flatten_cons, List.length_append]
        rw [ih (r - c.length)]
        omega

theorem mergePrefixLoop_fst_ne_nil (c : List Nat) (rest : List (List Nat)) (r : Nat)
    (hr : r ≠ 0) : (mergePrefixLoop (c :: rest) r).1 ≠ [] := by
  simp only [mergePrefixLoop, hr, if_false]
  by_cases h1 : r < c.length <;> simp [h1]

theorem merge_prefix_flatten (D : List (List Nat)) (k : Nat) :
    ( _merge_prefix D k).flatten = D.flatten := by
  have h := mergePrefixLoop_flatten D k
  unfold _merge_prefix
  by_cases hg : D.length = 1 ∧ (D.headD []).length ≤ k
  · rw [if_pos hg]
  · rw [if_neg hg]
    by_cases h1 : (mergePrefixLoop D k).1 = []
    · rw [if_pos h1]
      rw [h1] at h
      simp only [List.flatten_nil, List.nil_append] at h
      by_cases h2 : (mergePrefixLoop D k).2 = []
      · rw [if_pos h2]
        rw [h2] at h
        simp only [List.flatten_nil] at h
        simp [← h]
      · rw [if_neg h2]
        exact h
    · rw [if_neg h1, List.flatten_cons]
      exact h

theorem merge_prefix_ne_nil (D : List (List Nat)) (k : Nat) : _merge_prefix D k ≠ [] := by
  unfold _merge_prefix
  by_cases hg : D.length = 1 ∧ (D.headD []).length ≤ k
  · rw [if_pos hg]
    intro hD
    rw [hD] at hg
    simp at hg
  · rw [if_neg hg]
    by_cases h1 : (mergePrefixLoop D k).1 = []
    · rw [if_pos h1]
      by_cases h2 : (mergePrefixLoop D k).2 = []
      · rw [if_pos h2]; simp
      · rw [if_neg h2]; exact h2
    · rw [if_neg h1]; simp

theorem length_eq_one_iff {α : Type} (l : List α) : l.length = 1 ↔ ∃ a, l = [a] := by
  cases l with
  | nil => simp
  | cons a t => cases t <;> simp

theorem merge_prefix_head_len (D : List (List Nat)) (k : Nat) (hk : 1 ≤ k) :
    (( _merge_prefix D k).headD []).length = min k D.flatten.length := by
  unfold _merge_prefix
  by_cases hg : D.length = 1 ∧ (D.headD []).length ≤ k
  · obtain ⟨c, rfl⟩ := (length_eq_one_iff D).mp hg.1
    rw [if_pos hg]
    have h2 := hg.2
    simp only [List.headD] at h2 ⊢
    simp only [List.flatten_cons, List.flatten_nil, List.append_nil]
    omega
  · rw [if_neg hg]
    cases D with
    | nil => simp [mergePrefixLoop]
    | cons c rest =>
      have h1 := mergePrefixLoop_fst_ne_nil c rest k (by omega)
      rw [if_neg h1]
      simp only [List.headD]
      exact mergePrefixLoop_len (c :: rest) k

theorem headD_cons_tail (l : List (List Nat)) (hl : l ≠ []) :
    l.headD [] :: l.tail = l := by
  cases l with
  | nil => exact absurd rfl hl
  | cons a t => rfl

theorem take_min_self (l : List Nat) (k : Nat) : l.take (min k l.length) = l.take k := by
  rcases le_total k l.length with h | h
  · rw [min_eq_left h]
  · rw [min_eq_right h, List.take_length, List.take_of_length_le h]

theorem drop_min_self (l : List Nat) (k : Nat) : l.drop (min k l.length) = l.drop k := by
  rcases le_total k l.length with h | h
  · rw [min_eq_left h]
  · rw [min_eq_right h, List.drop_length, List.drop_eq_nil_of_le h]

theorem merge_prefix_split (D : List (List Nat)) (k : Nat) :
    ( _merge_prefix D k).headD [] ++ ( _merge_prefix D k).tail.flatten = D.flatten := by
  have h1 := merge_prefix_ne_nil D k
  have h2 := merge_prefix_flatten D k
  conv at h2 => lhs; rw [← headD_cons_tail ( _merge_prefix D k) h1]
  rw [List.flatten_cons] at h2
  exact h2

theorem merge_prefix_headD (D : List (List Nat)) (k : Nat) (hk : 1 ≤ k) :
    ( _merge_prefix D k).headD [] = D.flatten.take k := by
  have hsplit := merge_prefix_split D k
  have hlen := merge_prefix_head_len D k hk
  have h : ( _merge_prefix D k).headD [] =
      D.flatten.take (( _merge_prefix D k).headD []).length := by
    conv => rhs; rw [← hsplit]
    rw [List.take_left]
  rw [h, hlen, take_min_self]

theorem merge_prefix_tail_flatten (D : List (List Nat)) (k : Nat) (hk : 1 ≤ k) :
    ( _merge_prefix D k).tail.flatten = D.flatten.drop k := by
  have hsplit := merge_prefix_split D k
  have hlen := merge_prefix_head_len D k hk
  have h : ( _merge_prefix D k).tail.flatten =
      D.flatten.drop (( _merge_prefix D k).headD []).length := by
    conv => rhs; rw [← hsplit]
    rw [List.drop_left]
  rw [h, hlen, drop_min_self]

theorem merge_prefix_nil (k : Nat) : _merge_prefix [] k = [[]] := by
  simp [ _merge_prefix, mergePrefixLoop]

/-- C1 counterexample: at size `k = 0` the claim fails.  `_merge_prefix`
leaves a deque whose only chunk is non-empty untouched when `size = 0`
(the loop of lines 610-616 never runs), so the first chunk's length is `1`,
not `min 0 1 = 0`, and the first chunk is not the first `0` bytes of the
concatenation. -/
theorem merge_prefix_size_zero_counterexample :
    _merge_prefix [[97]] 0 = [[97]] ∧
    (( _merge_prefix [[97]] 0).headD []).length ≠ min 0 (List.flatten [[97]]).length ∧
    ( _merge_prefix [[97]] 0).headD [] ≠ (List.flatten [[97]]).take 0 := by
  decide

/-- C1 (amended): for every deque `D` and every size `k ≥ 1`, `_merge_prefix`
preserves the concatenation, makes the first chunk's length `min k |D|`,
makes the first chunk the first `k` bytes of the original concatenation with
the residue equal to the original concatenation's suffix, and pushes an empty
chunk when the deque was empty. -/
theorem merge_prefix_spec (D : List (List Nat)) (k : Nat) (hk : 1 ≤ k) :
    ( _merge_prefix D k).flatten = D.flatten ∧
    (( _merge_prefix D k).headD []).length = min k D.flatten.length ∧
    ( _merge_prefix D k).headD [] = D.flatten.take k ∧
    ( _merge_prefix D k).tail.flatten = D.flatten.drop k ∧
    _merge_prefix ([] : List (List Nat)) k = [[]] :=
  ⟨merge_prefix_flatten D k, merge_prefix_head_len D k hk, merge_prefix_headD D k hk,
   merge_prefix_tail_flatten D k hk, merge_prefix_nil k⟩

/-- Witness for `merge_prefix_spec`: the doctest deque of lines 592-594. -/
theorem merge_prefix_spec_witness :
    ( _merge_prefix [[97, 98, 99], [100, 101], [102, 103, 104, 105], [106]] 5).flatten
        = List.flatten [[97, 98, 99], [100, 101], [102, 103, 104, 105], [106]] ∧
    (( _merge_prefix [[97, 98, 99], [100, 101], [102, 103, 104, 105], [106]] 5).headD []).length
        = min 5 (List.flatten [[97, 98, 99], [100, 101], [102, 103, 104, 105], [106]]).length ∧
    ( _merge_prefix [[97, 98, 99], [100, 101], [102, 103, 104, 105], [106]] 5).headD []
        = (List.flatten [[97, 98, 99], [100, 101], [102, 103, 104, 105], [106]]).take 5 ∧
    ( _merge_prefix [[97, 98, 99], [100, 101], [102, 103, 104, 105], [106]] 5).tail.flatten
        = (List.flatten [[97, 98, 99], [100, 101], [102, 103, 104, 105], [106]]).drop 5 ∧
    _merge_prefix ([] : List (List Nat)) 5 = [[]] :=
  merge_prefix_spec [[97, 98, 99], [100, 101], [102, 103, 104, 105], [106]] 5 (by decide)

theorem take_eq_self_iff_ge (d : List Nat) (n : Nat) (h : d.take n = d) : d.length ≤ n := by
  have := congrArg List.length h
  rw [List.length_take] at this
  omega

theorem findSub_occurs (hay d : List Nat) :
    ∀ loc, findSub hay d = some loc → occursAt hay d loc := by
  induction hay with
  | nil =>
    intro loc h
    simp only [findSub] at h
    by_cases hd : d = []
    · rw [if_pos hd] at h
      cases h
      subst hd
      exact ⟨by simp, by simp⟩
    · rw [if_neg hd] at h
      cases h
  | cons a t ih =>
    intro loc h
    simp only [findSub] at h
    by_cases h0 : (a :: t).take d.length = d
    · rw [if_pos h0] at h
      cases h
      refine ⟨?_, by simpa using h0⟩
      have := congrArg List.length h0
      rw [List.length_take] at this
      simp only [Nat.zero_add]
      omega
    · rw [if_neg h0] at h
      rcases Option.map_eq_some'.mp h with ⟨m, hm, rfl⟩
      have := ih m hm
      refine ⟨?_, ?_⟩
      · have := this.1
        simp only [List.length_cons]
        omega
      · simpa using this.2

theorem findSub_min (hay d : List Nat) :
    ∀ loc, findSub hay d = some loc → ∀ p, p < loc → ¬ occursAt hay d p := by
  induction hay with
  | nil =>
    intro loc h p hp
    simp only [findSub] at h
    by_cases hd : d = []
    · rw [if_pos hd] at h; cases h; omega
    · rw [if_neg hd] at h; cases h
  | cons a t ih =>
    intro loc h p hp hocc
    simp only [findSub] at h
    by_cases h0 : (a :: t).take d.length = d
    · rw [if_pos h0] at h; cases h; omega
    · rw [if_neg h0] at h
      rcases Option.map_eq_some'.mp h with ⟨m, hm, rfl⟩
      cases p with
      | zero =>
        exact h0 (by simpa using hocc.2)
      | succ q =>
        refine ih m hm q (by omega) ⟨?_, ?_⟩
        · have := hocc.1
          simp only [List.length_cons] at this
          omega
        · simpa using hocc.2

theorem findSub_of_occurs_min (hay d : List Nat) :
    ∀ loc, occursAt hay d loc → (∀ p, p < loc → ¬ occursAt hay d p) →
      findSub hay d = some loc := by
  induction hay with
  | nil =>
    intro loc h1 _
    have hlen := h1.1
    simp only [List.length_nil] at hlen
    have hloc : loc = 0 := by omega
    have hd : d = [] := by
      have := h1.2
      rw [hloc] at this
      simpa using this.symm
    subst hloc
    simp [findSub, hd]
  | cons a t ih =>
    intro loc h1 h2
    simp only [findSub]
    cases loc with
    | zero =>
      have : (a :: t).take d.length = d := by simpa using h1.2
      rw [if_pos this]
    | succ m =>
      have h0 : ¬ (a :: t).take d.length = d := by
        intro hc
        refine h2 0 (by omega) ⟨?_, by simpa using hc⟩
        have := congrArg List.length hc
        rw [List.length_take] at this
        omega
      rw [if_neg h0]
      have hrec : findSub t d = some m := by
        refine ih m ⟨?_, ?_⟩ ?_
        · have := h1.1
          simp only [List.length_cons] at this
          omega
        · have := h1.2
          simpa using this
        · intro p hp hocc
          refine h2 (p + 1) (by omega) ⟨?_, ?_⟩
          · have := hocc.1
            simp only [List.length_cons]
            omega
          · simpa using hocc.2
      rw [hrec]
      rfl

theorem occursAt_append_right (h rest d : List Nat) (p : Nat)
    (hp : occursAt h d p) : occursAt (h ++ rest) d p := by
  rcases hp with ⟨hb, he⟩
  refine ⟨by simp only [List.length_append]; omega, ?_⟩
  rw [List.drop_append_eq_append_drop]
  have hdrop : rest.drop (p - h.length) = rest := by
    have : p - h.length = 0 := by omega
    rw [this, List.drop_zero]
  rw [hdrop, List.take_append_eq_append_take]
  have h1 : d.length - (h.drop p).length = 0 := by
    rw [List.length_drop]
    omega
  rw [h1, List.take_zero, List.append_nil]
  exact he

theorem occursAt_of_append (h rest d : List Nat) (p : Nat)
    (hle : p + d.length ≤ h.length) (hp : occursAt (h ++ rest) d p) :
    occursAt h d p := by
  rcases hp with ⟨_, he⟩
  refine ⟨hle, ?_⟩
  rw [List.drop_append_eq_append_drop] at he
  have hdrop : rest.drop (p - h.length) = rest := by
    have : p - h.length = 0 := by omega
    rw [this, List.drop_zero]
  rw [hdrop, List.take_append_eq_append_take] at he
  have h1 : d.length - (h.drop p).length = 0 := by
    rw [List.length_drop]
    omega
  rw [h1, List.take_zero, List.append_nil] at he
  exact he

theorem findSub_append (h rest d : List Nat) (loc : Nat)
    (hf : findSub h d = some loc) : findSub (h ++ rest) d = some loc := by
  have h1 := findSub_occurs h d loc hf
  have h2 := findSub_min h d loc hf
  refine findSub_of_occurs_min (h ++ rest) d loc (occursAt_append_right h rest d loc h1) ?_
  intro p hp hocc
  have hb : p + d.length ≤ h.length := by
    have := h1.1
    omega
  exact h2 p hp (occursAt_of_append h rest d p hb hocc)

theorem double_prefix_flatten (l : List (List Nat)) :
    ( _double_prefix l).flatten = l.flatten := by
  unfold _double_prefix
  exact merge_prefix_flatten l _

theorem readUntilLoop_flatten (d : List Nat) :
    ∀ fuel buf, (readUntilLoop d fuel buf).2.flatten = buf.flatten := by
  intro fuel
  induction fuel with
  | zero =>
    intro buf
    cases buf with
    | nil => rfl
    | cons h t =>
      simp only [readUntilLoop]
      cases hf : findSub h d with
      | some loc => rfl
      | none =>
        by_cases ht : t = [] <;> simp [ht]
  | succ fuel ih =>
    intro buf
    cases buf with
    | nil => rfl
    | cons h t =>
      simp only [readUntilLoop]
      cases hf : findSub h d with
      | some loc => rfl
      | none =>
        by_cases ht : t = []
        · simp [ht]
        · simp only [ht, if_false]
          rw [ih ( _double_prefix (h :: t)), double_prefix_flatten]

theorem readUntilLoop_found (d : List Nat) :
    ∀ fuel buf loc, (readUntilLoop d fuel buf).1 = some loc →
      findSub (readUntilLoop d fuel buf).2.flatten d = some loc := by
  intro fuel
  induction fuel with
  | zero =>
    intro buf loc h
    cases buf with
    | nil => simp [readUntilLoop] at h
    | cons hd t =>
      simp only [readUntilLoop] at h ⊢
      cases hf : findSub hd d with
      | some l =>
        rw [hf] at h
        cases h
        simp only [List.flatten_cons]
        exact findSub_append hd t.flatten d loc hf
      | none =>
        rw [hf] at h
        by_cases ht : t = [] <;> simp [ht] at h
  | succ fuel ih =>
    intro buf loc h
    cases buf with
    | nil => simp [readUntilLoop] at h
    | cons hd t =>
      simp only [readUntilLoop] at h ⊢
      cases hf : findSub hd d with
      | some l =>
        rw [hf] at h
        cases h
        simp only [List.flatten_cons]
        exact findSub_append hd t.flatten d loc hf
      | none =>
        rw [hf] at h
        by_cases ht : t = []
        · simp [ht] at h
        · simp only [ht, if_false] at h ⊢
          exact ih ( _double_prefix (hd :: t)) loc h

theorem consume_payload (s : ReadState) (loc : Nat) :
    ( _consume s loc).1 = s.read_buffer.flatten.take loc := by
  unfold _consume
  by_cases h : loc = 0
  · rw [if_pos h, h, List.take_zero]
  · rw [if_neg h]
    exact merge_prefix_headD s.read_buffer loc (by omega)

theorem consume_buffer (s : ReadState) (loc : Nat) :
    ( _consume s loc).2.read_buffer.flatten = s.read_buffer.flatten.drop loc := by
  unfold _consume
  by_cases h : loc = 0
  · rw [if_pos h, h, List.drop_zero]
  · rw [if_neg h]
    exact merge_prefix_tail_flatten s.read_buffer loc (by omega)

theorem consume_fields (s : ReadState) (loc : Nat) :
    ( _consume s loc).2.read_delimiter = s.read_delimiter ∧
    ( _consume s loc).2.read_bytes = s.read_bytes ∧
    ( _consume s loc).2.streaming_cb = s.streaming_cb ∧
    ( _consume s loc).2.read_cb = s.read_cb ∧
    ( _consume s loc).2.read_until_close = s.read_until_close ∧
    ( _consume s loc).2.pending_callbacks = s.pending_callbacks ∧
    ( _consume s loc).2.streamed = s.streamed ∧
    ( _consume s loc).2.completed = s.completed ∧
    ( _consume s loc).2.read_buffer_size = s.read_buffer_size - loc := by
  unfold _consume
  by_cases h : loc = 0
  · rw [if_pos h]
    refine ⟨rfl, rfl, rfl, rfl, rfl, rfl, rfl, rfl, ?_⟩
    rw [h]
    rfl
  · rw [if_neg h]
    exact ⟨rfl, rfl, rfl, rfl, rfl, rfl, rfl, rfl, rfl⟩

theorem filter_length_one (m a : Nat) (p : Nat → Bool) (ha : a < m)
    (h : ∀ x, x < m → (p x = true ↔ x = a)) :
    ((List.range m).filter p).length = 1 := by
  induction m with
  | zero => omega
  | succ m ih =>
    rw [List.range_succ, List.filter_append, List.length_append]
    by_cases hm : a = m
    · have h0 : (List.range m).filter p = [] := by
        rw [List.filter_eq_nil_iff]
        intro x hx
        have hxm := List.mem_range.mp hx
        intro hc
        have := (h x (by omega)).mp hc
        omega
      rw [h0]
      have hpm : p m = true := (h m (by omega)).mpr hm.symm
      simp [hpm]
    · have ha' : a < m := by omega
      rw [ih ha' (fun x hx => h x (by omega))]
      have hpm : p m = false := by
        by_contra hc
        have : p m = true := by
          cases hq : p m
          · exact absurd hq hc
          · rfl
        have := (h m (by omega)).mp this
        omega
      simp [hpm]

theorem countOccur_eq_one (P d : List Nat) (hd : d.length ≤ P.length)
    (h : ∀ p, occursAt P d p ↔ p = P.length - d.length) :
    countOccur P d = 1 := by
  unfold countOccur
  refine filter_length_one (P.length + 1) (P.length - d.length) _ (by omega) ?_
  intro x _
  rw [decide_eq_true_iff]
  exact h x

theorem streamingBranch_skip (s : ReadState) (hs : s.streaming_cb = false) :
    streamingBranch s = s := by
  unfold streamingBranch
  rw [if_neg]
  simp [hs]

theorem bytesReady_none (s : ReadState) (hb : s.read_bytes = none) :
    bytesReady s = false := by
  unfold bytesReady
  rw [hb]

theorem delim_complete_facts (d J : List Nat) (loc : Nat)
    (hf : findSub J d = some loc) :
    List.IsSuffix d (J.take (loc + d.length)) ∧
    d.length ≤ (J.take (loc + d.length)).length ∧
    (∀ p, occursAt (J.take (loc + d.length)) d p ↔
        p = (J.take (loc + d.length)).length - d.length) ∧
    (J.take (loc + d.length)) ++ J.drop (loc + d.length) = J ∧
    (J.take (loc + d.length)).length - d.length = loc := by
  have hocc := findSub_occurs J d loc hf
  have hmin := findSub_min J d loc hf
  have hJlen : loc + d.length ≤ J.length := hocc.1
  set P := J.take (loc + d.length) with hP
  have hlen : P.length = loc + d.length := by
    rw [hP, List.length_take]
    omega
  have hPd : P.drop loc = d := by
    rw [hP, List.drop_take]
    have he : loc + d.length - loc = d.length := by omega
    rw [he]
    exact hocc.2
  have hsuf : List.IsSuffix d P := ⟨P.take loc, by rw [← hPd]; exact List.take_append_drop loc P⟩
  have hiff : ∀ p, occursAt P d p ↔ p = P.length - d.length := by
    intro p
    constructor
    · rintro ⟨hpb, hpe⟩
      by_contra hne
      have hplt : p < loc := by omega
      refine hmin p hplt ⟨by omega, ?_⟩
      have hEq : (P.drop p).take d.length = (J.drop p).take d.length := by
        rw [hP, List.drop_take, List.take_take]
        have : min d.length (loc + d.length - p) = d.length := by omega
        rw [this]
      rw [← hEq]
      exact hpe
    · rintro rfl
      have hp : P.length - d.length = loc := by omega
      rw [hp]
      refine ⟨by omega, ?_⟩
      rw [hPd, List.take_length]
  refine ⟨hsuf, by omega, hiff, List.take_append_drop _ J, by omega⟩

theorem DelimInv_arrive (d total : List Nat) (s : ReadState) (c : List Nat)
    (h : DelimInv d total s) : DelimInv d (total ++ c) (readStep s (.arrive c)) := by
  obtain ⟨hb, hs, hcase⟩ := h
  refine ⟨hb, hs, ?_⟩
  rcases hcase with ⟨h1, h2, h3⟩ | ⟨P, h1, h2, h3, h4, h5, h6, h7⟩
  · left
    refine ⟨h1, h2, ?_⟩
    show (s.read_buffer ++ [c]).flatten = total ++ c
    rw [List.flatten_append, h3]
    simp
  · right
    refine ⟨P, h1, h2, h3, h4, h5, ?_, ?_⟩
    · show P ++ (s.read_buffer ++ [c]).flatten = total ++ c
      rw [List.flatten_append, ← List.append_assoc, h6]
      simp
    · rw [findSub_append total c d _ h7]

theorem DelimInv_dispatch (d total : List Nat) (s : ReadState)
    (h : DelimInv d total s) : DelimInv d total (readStep s .dispatch) := by
  obtain ⟨hb, hs, hcase⟩ := h
  show DelimInv d total (read_from_buffer s).1
  simp only [read_from_buffer]
  rw [streamingBranch_skip s hs, bytesReady_none s hb]
  rw [if_neg (by simp : ¬ (false = true))]
  split
  · next delim hdelim =>
    rcases hcase with ⟨h1, h2, h3⟩ | ⟨P, h1, h2, _⟩
    · rw [hdelim] at h2
      have hdd : d = delim := (Option.some_inj.mp h2).symm
      subst hdd
      by_cases hbuf : s.read_buffer = []
      · rw [if_pos hbuf]
        exact ⟨hb, hs, Or.inl ⟨h1, hdelim, h3⟩⟩
      · rw [if_neg hbuf]
        have hflat2 : (readUntilLoop d s.read_buffer.length s.read_buffer).2.flatten
            = total := by
          rw [readUntilLoop_flatten, h3]
        split
        · next loc hloc =>
          have hf : findSub total d = some loc := by
            rw [← hflat2]
            exact readUntilLoop_found d s.read_buffer.length s.read_buffer loc hloc
          obtain ⟨f1, f2, f3, f4, f5⟩ := delim_complete_facts d total loc hf
          have hp1 : ( _consume
              { s with read_buffer := (readUntilLoop d s.read_buffer.length s.read_buffer).2 }
              (loc + d.length)).1 = total.take (loc + d.length) := by
            rw [consume_payload]
            show (readUntilLoop d s.read_buffer.length s.read_buffer).2.flatten.take
                (loc + d.length) = total.take (loc + d.length)
            rw [hflat2]
          have hp2 : ( _consume
              { s with read_buffer := (readUntilLoop d s.read_buffer.length s.read_buffer).2 }
              (loc + d.length)).2.read_buffer.flatten = total.drop (loc + d.length) := by
            rw [consume_buffer]
            show (readUntilLoop d s.read_buffer.length s.read_buffer).2.flatten.drop
                (loc + d.length) = total.drop (loc + d.length)
            rw [hflat2]
          refine ⟨?_, rfl, Or.inr ⟨total.take (loc + d.length), ?_, rfl, f1, f2, f3, ?_, ?_⟩⟩
          · show ( _consume
                { s with read_buffer := (readUntilLoop d s.read_buffer.length s.read_buffer).2 }
                (loc + d.length)).2.read_bytes = none
            rw [(consume_fields _ _).2.1]
            exact hb
          · show some ( _consume
                { s with read_buffer := (readUntilLoop d s.read_buffer.length s.read_buffer).2 }
                (loc + d.length)).1 = some (total.take (loc + d.length))
            rw [hp1]
          · show total.take (loc + d.length) ++
                ( _consume
                  { s with read_buffer := (readUntilLoop d s.read_buffer.length s.read_buffer).2 }
                  (loc + d.length)).2.read_buffer.flatten = total
            rw [hp2]
            exact f4
          · rw [f5]
            exact hf
        · next hloc =>
          refine ⟨hb, hs, Or.inl ⟨h1, hdelim, ?_⟩⟩
          show (readUntilLoop d s.read_buffer.length s.read_buffer).2.flatten = total
          exact hflat2
    · rw [hdelim] at h2
      cases h2
  · next hdnone =>
    exact ⟨hb, hs, hcase⟩

theorem DelimInv_run (d : List Nat) :
    ∀ ops (total : List Nat) (s : ReadState), DelimInv d total s →
      DelimInv d (total ++ arrivedBytes ops) (runRead s ops) := by
  intro ops
  induction ops with
  | nil =>
    intro total s h
    simpa [runRead, arrivedBytes] using h
  | cons op ops ih =>
    intro total s h
    cases op with
    | arrive c =>
      have h2 := ih (total ++ c) (readStep s (.arrive c)) (DelimInv_arrive d total s c h)
      have hrun : runRead s (.arrive c :: ops) = runRead (readStep s (.arrive c)) ops := rfl
      have harr : arrivedBytes (ReadOp.arrive c :: ops) = c ++ arrivedBytes ops := by
        simp [arrivedBytes]
      rw [hrun, harr, ← List.append_assoc]
      exact h2
    | dispatch =>
      have h2 := ih total (readStep s .dispatch) (DelimInv_dispatch d total s h)
      have hrun : runRead s (.dispatch :: ops) = runRead (readStep s .dispatch) ops := rfl
      have harr : arrivedBytes (ReadOp.dispatch :: ops) = arrivedBytes ops := by
        simp [arrivedBytes]
      rw [hrun, harr]
      exact h2

/-- C2: on every `read_until(d, cb)` run that completes, the payload `P`
delivered to the read callback has `d` as a suffix, contains exactly one
occurrence of `d` (at its end), that occurrence sits at the first occurrence
of `d` in the bytes available to the read (initial buffer plus arrivals), and
the remaining bytes stay buffered. -/
theorem read_until_delivery_spec (B0 : List (List Nat)) (d : List Nat)
    (ops : List ReadOp) (P : List Nat)
    (h : (runRead (arm_read_until B0 d) ops).completed = some P) :
    List.IsSuffix d P ∧
    countOccur P d = 1 ∧
    occursAt P d (P.length - d.length) ∧
    P ++ (runRead (arm_read_until B0 d) ops).read_buffer.flatten
      = B0.flatten ++ arrivedBytes ops ∧
    findSub (B0.flatten ++ arrivedBytes ops) d = some (P.length - d.length) := by
  have hinv := DelimInv_run d ops B0.flatten (arm_read_until B0 d)
    ⟨rfl, rfl, Or.inl ⟨rfl, rfl, rfl⟩⟩
  obtain ⟨_, _, hcase⟩ := hinv
  rcases hcase with ⟨hc, _, _⟩ | ⟨P', h1, _, h3, h4, h5, h6, h7⟩
  · rw [h] at hc
    cases hc
  · rw [h] at h1
    have hPP : P' = P := Option.some_inj.mp h1.symm
    subst hPP
    exact ⟨h3, countOccur_eq_one P' d h4 h5, (h5 _).mpr rfl, h6, h7⟩

/-- Witness for `read_until_delivery_spec`: the delimiter `"\x5cr\x5cn"` split
across the chunks `"foo\x5cr"` and `"\x5cnbar"`; the payload is
`"foo\x5cr\x5cn"` and `"bar"` stays buffered. -/
theorem read_until_delivery_spec_witness :
    List.IsSuffix [13, 10] [102, 111, 111, 13, 10] ∧
    countOccur [102, 111, 111, 13, 10] [13, 10] = 1 ∧
    occursAt [102, 111, 111, 13, 10] [13, 10]
      ([102, 111, 111, 13, 10].length - [13, 10].length) ∧
    [102, 111, 111, 13, 10] ++
      (runRead (arm_read_until [] [13, 10])
        [.dispatch, .arrive [102, 111, 111, 13], .dispatch,
         .arrive [10, 98, 97, 114], .dispatch]).read_buffer.flatten
      = List.flatten ([] : List (List Nat)) ++
        arrivedBytes [.dispatch, .arrive [102, 111, 111, 13], .dispatch,
          .arrive [10, 98, 97, 114], .dispatch] ∧
    findSub (List.flatten ([] : List (List Nat)) ++
        arrivedBytes [.dispatch, .arrive [102, 111, 111, 13], .dispatch,
          .arrive [10, 98, 97, 114], .dispatch]) [13, 10]
      = some ([102, 111, 111, 13, 10].length - [13, 10].length) :=
  read_until_delivery_spec [] [13, 10]
    [.dispatch, .arrive [102, 111, 111, 13], .dispatch,
     .arrive [10, 98, 97, 114], .dispatch]
    [102, 111, 111, 13, 10] (by decide)

theorem streamingBranch_skip_size (s : ReadState) (hz : s.read_buffer_size = 0) :
    streamingBranch s = s := by
  unfold streamingBranch
  rw [if_neg]
  simp [hz]

theorem streamingBranch_fields (s : ReadState) (r : Nat)
    (hst : s.streaming_cb = true) (hb : s.read_bytes = some r)
    (hsz : s.read_buffer_size ≠ 0) :
    (streamingBranch s).read_bytes = some (r - min r s.read_buffer_size) ∧
    (streamingBranch s).read_buffer_size
      = s.read_buffer_size - min r s.read_buffer_size ∧
    (streamingBranch s).read_buffer.flatten
      = s.read_buffer.flatten.drop (min r s.read_buffer_size) ∧
    (streamingBranch s).streamed
      = s.streamed ++ [s.read_buffer.flatten.take (min r s.read_buffer_size)] ∧
    (streamingBranch s).streaming_cb = true ∧
    (streamingBranch s).read_delimiter = s.read_delimiter ∧
    (streamingBranch s).completed = s.completed ∧
    (streamingBranch s).pending_callbacks = s.pending_callbacks + 1 := by
  obtain ⟨buf, size, rdel, rbytes, ruc, rcb, scb, pend, strm, comp⟩ := s
  simp only at hst hb hsz
  subst hst hb
  simp only [streamingBranch]
  rw [if_pos ⟨trivial, hsz⟩]
  simp only [Option.map_some']
  refine ⟨?_, ?_, ?_, ?_, ?_, ?_, ?_, ?_⟩
  · show ( _consume _ _).2.read_bytes = _
    rw [(consume_fields _ _).2.1]
  · show ( _consume _ _).2.read_buffer_size = _
    rw [(consume_fields _ _).2.2.2.2.2.2.2.2]
  · show ( _consume _ _).2.read_buffer.flatten = _
    rw [consume_buffer]
  · show ( _consume _ _).2.streamed ++ [( _consume _ _).1] = _
    rw [(consume_fields _ _).2.2.2.2.2.2.1, consume_payload]
  · show ( _consume _ _).2.streaming_cb = _
    rw [(consume_fields _ _).2.2.1]
  · show ( _consume _ _).2.read_delimiter = _
    rw [(consume_fields _ _).1]
  · show ( _consume _ _).2.completed = _
    rw [(consume_fields _ _).2.2.2.2.2.2.2.1]
  · show ( _consume _ _).2.pending_callbacks + 1 = _
    rw [(consume_fields _ _).2.2.2.2.2.1]

theorem bytesReady_some (s : ReadState) (r : Nat) (hb : s.read_bytes = some r) :
    bytesReady s = decide (s.read_buffer_size ≥ r) := by
  obtain ⟨buf, size, rdel, rbytes, ruc, rcb, scb, pend, strm, comp⟩ := s
  simp only at hb
  subst hb
  rfl

theorem BytesInv_arrive (n : Nat) (s : ReadState) (c : List Nat)
    (h : BytesInv n s) : BytesInv n (readStep s (.arrive c)) := by
  obtain ⟨h1, h2, h3, hcase⟩ := h
  refine ⟨?_, h2, h3, hcase⟩
  show s.read_buffer_size + c.length = (s.read_buffer ++ [c]).flatten.length
  rw [List.flatten_append, List.length_append, h1]
  simp

theorem BytesInv_dispatch (n : Nat) (s : ReadState) (h : BytesInv n s) :
    BytesInv n (readStep s .dispatch) := by
  obtain ⟨hsz, hdel, hcap, hcase⟩ := h
  show BytesInv n (read_from_buffer s).1
  simp only [read_from_buffer]
  rcases hcase with ⟨hc, hst, r, hb, hsum⟩ | ⟨hc, hb, hst, hsum⟩
  · by_cases hz : s.read_buffer_size = 0
    · rw [streamingBranch_skip_size s hz]
      by_cases hr : r = 0
      · subst hr
        have hready : bytesReady s = true := by
          rw [bytesReady_some s 0 hb]
          simp
        rw [hready, if_pos rfl, hb]
        refine ⟨hsz, hdel, hcap, Or.inr ⟨rfl, rfl, rfl, ?_⟩⟩
        show s.streamed.flatten.length = n
        omega
      · have hready : bytesReady s = false := by
          rw [bytesReady_some s r hb]
          simp only [decide_eq_false_iff_not]
          omega
        rw [hready, if_neg (by simp : ¬ (false = true)), hdel]
        exact ⟨hsz, hdel, hcap, Or.inl ⟨hc, hst, r, hb, hsum⟩⟩
    · obtain ⟨w1, w2, w3, w4, w5, w6, w7, _⟩ := streamingBranch_fields s r hst hb hz
      have hszle : min r s.read_buffer_size ≤ s.read_buffer_size := min_le_right _ _
      have htl := List.length_take (min r s.read_buffer_size) s.read_buffer.flatten
      by_cases hrs : r ≤ s.read_buffer_size
      · have hmin : min r s.read_buffer_size = r := min_eq_left hrs
        rw [hmin] at w1 w2 w3 w4 htl
        have hready : bytesReady (streamingBranch s) = true := by
          rw [bytesReady_some _ _ w1]
          simp
        rw [hready, if_pos rfl, w1]
        simp only [Option.getD_some, Nat.sub_self]
        refine ⟨?_, ?_, ?_, Or.inr ⟨rfl, rfl, rfl, ?_⟩⟩
        · show (streamingBranch s).read_buffer_size
            = (streamingBranch s).read_buffer.flatten.length
          rw [w2, w3, List.length_drop, hsz]
        · show (streamingBranch s).read_delimiter = none
          rw [w6]
          exact hdel
        · show ∀ c ∈ (streamingBranch s).streamed, c.length ≤ n
          rw [w4]
          intro c hcmem
          rcases List.mem_append.mp hcmem with hold | hnew
          · exact hcap c hold
          · have : c = s.read_buffer.flatten.take r := List.mem_singleton.mp hnew
            rw [this]
            omega
        · show (streamingBranch s).streamed.flatten.length = n
          rw [w4, List.flatten_append, List.length_append]
          simp only [List.flatten_cons, List.flatten_nil, List.append_nil]
          omega
      · have hready : bytesReady (streamingBranch s) = false := by
          rw [bytesReady_some _ _ w1]
          simp only [decide_eq_false_iff_not]
          rw [w2]
          omega
        rw [hready, if_neg (by simp : ¬ (false = true)), w6, hdel]
        refine ⟨?_, ?_, ?_,
          Or.inl ⟨?_, w5, ⟨r - min r s.read_buffer_size, w1, ?_⟩⟩⟩
        · show (streamingBranch s).read_buffer_size
            = (streamingBranch s).read_buffer.flatten.length
          rw [w2, w3, List.length_drop, hsz]
        · show (streamingBranch s).read_delimiter = none
          rw [w6]
          exact hdel
        · show ∀ c ∈ (streamingBranch s).streamed, c.length ≤ n
          rw [w4]
          intro c hcmem
          rcases List.mem_append.mp hcmem with hold | hnew
          · exact hcap c hold
          · have : c = s.read_buffer.flatten.take (min r s.read_buffer_size) :=
              List.mem_singleton.mp hnew
            rw [this]
            omega
        · show (streamingBranch s).completed = none
          rw [w7]
          exact hc
        · show (streamingBranch s).streamed.flatten.length
            + (r - min r s.read_buffer_size) = n
          rw [w4, List.flatten_append, List.length_append]
          simp only [List.flatten_cons, List.flatten_nil, List.append_nil]
          omega
  · rw [streamingBranch_skip s hst, bytesReady_none s hb,
        if_neg (by simp : ¬ (false = true)), hdel]
    exact ⟨hsz, hdel, hcap, Or.inr ⟨hc, hb, hst, hsum⟩⟩

theorem BytesInv_run (n : Nat) :
    ∀ ops (s : ReadState), BytesInv n s → BytesInv n (runRead s ops) := by
  intro ops
  induction ops with
  | nil => intro s h; exact h
  | cons op ops ih =>
    intro s h
    cases op with
    | arrive c => exact ih (readStep s (.arrive c)) (BytesInv_arrive n s c h)
    | dispatch => exact ih (readStep s .dispatch) (BytesInv_dispatch n s h)

/-- C3: on every `read_bytes(n, done, stream)` run with a streaming callback
that reaches completion, the streaming payloads concatenate to exactly `n`
bytes (each single delivery capped to `n`), and the completion payload is
empty. -/
theorem read_bytes_streaming_spec (n : Nat) (ops : List ReadOp) (P : List Nat)
    (h : (runRead (arm_read_bytes n) ops).completed = some P) :
    P = [] ∧
    (runRead (arm_read_bytes n) ops).streamed.flatten.length = n ∧
    ∀ c ∈ (runRead (arm_read_bytes n) ops).streamed, c.length ≤ n := by
  have hinv := BytesInv_run n ops (arm_read_bytes n)
    ⟨rfl, rfl, by simp [arm_read_bytes],
     Or.inl ⟨rfl, rfl, n, rfl, by show (0 : Nat) + n = n; omega⟩⟩
  obtain ⟨_, _, hcap, hcase⟩ := hinv
  rcases hcase with ⟨hc, _, _⟩ | ⟨hc, _, _, hsum⟩
  · rw [h] at hc
    cases hc
  · rw [h] at hc
    exact ⟨Option.some_inj.mp hc, hsum, hcap⟩

/-- Witness for `read_bytes_streaming_spec`: `read_bytes(10, done, chunk)`
with the socket delivering `"abcd"` then `"efghij"` (scenario 3 of the
specification). -/
theorem read_bytes_streaming_spec_witness :
    ([] : List Nat) = [] ∧
    (runRead (arm_read_bytes 10)
      [.dispatch, .arrive [97, 98, 99, 100], .dispatch,
       .arrive [101, 102, 103, 104, 105, 106], .dispatch]).streamed.flatten.length = 10 ∧
    ∀ c ∈ (runRead (arm_read_bytes 10)
      [.dispatch, .arrive [97, 98, 99, 100], .dispatch,
       .arrive [101, 102, 103, 104, 105, 106], .dispatch]).streamed, c.length ≤ 10 :=
  read_bytes_streaming_spec 10
    [.dispatch, .arrive [97, 98, 99, 100], .dispatch,
     .arrive [101, 102, 103, 104, 105, 106], .dispatch] [] (by decide)

theorem consume_read_delimiter (s : ReadState) (loc : Nat) :
    ( _consume s loc).2.read_delimiter = s.read_delimiter := (consume_fields s loc).1

theorem consume_read_bytes (s : ReadState) (loc : Nat) :
    ( _consume s loc).2.read_bytes = s.read_bytes := (consume_fields s loc).2.1

theorem consume_streaming_cb (s : ReadState) (loc : Nat) :
    ( _consume s loc).2.streaming_cb = s.streaming_cb := (consume_fields s loc).2.2.1

theorem consume_read_cb (s : ReadState) (loc : Nat) :
    ( _consume s loc).2.read_cb = s.read_cb := (consume_fields s loc).2.2.2.1

theorem consume_ruc (s : ReadState) (loc : Nat) :
    ( _consume s loc).2.read_until_close = s.read_until_close :=
  (consume_fields s loc).2.2.2.2.1

theorem consume_pending (s : ReadState) (loc : Nat) :
    ( _consume s loc).2.pending_callbacks = s.pending_callbacks :=
  (consume_fields s loc).2.2.2.2.2.1

theorem consume_streamed (s : ReadState) (loc : Nat) :
    ( _consume s loc).2.streamed = s.streamed := (consume_fields s loc).2.2.2.2.2.2.1

theorem consume_completed (s : ReadState) (loc : Nat) :
    ( _consume s loc).2.completed = s.completed := (consume_fields s loc).2.2.2.2.2.2.2.1

theorem consume_size (s : ReadState) (loc : Nat) :
    ( _consume s loc).2.read_buffer_size = s.read_buffer_size - loc :=
  (consume_fields s loc).2.2.2.2.2.2.2.2

/-- C4 counterexample: `read_until_close` on an already-closed stream whose
buffer holds `"tail"`, with a streaming callback installed.  The streaming
callback receives the whole buffer, but the completion callback receives the
empty payload (the second `_consume` on line 105 runs after the counter
dropped to zero), contradicting the claim that both callbacks receive the
buffered bytes. -/
theorem read_until_close_counterexample :
    (read_until_close
      ⟨false, none,
       { read_buffer := [[116, 97, 105, 108]], read_buffer_size := 4,
         read_delimiter := none, read_bytes := none, read_until_close := false,
         read_cb := false, streaming_cb := false, pending_callbacks := 0,
         streamed := [], completed := none }⟩ true).rs.streamed
      = [[116, 97, 105, 108]] ∧
    (read_until_close
      ⟨false, none,
       { read_buffer := [[116, 97, 105, 108]], read_buffer_size := 4,
         read_delimiter := none, read_bytes := none, read_until_close := false,
         read_cb := false, streaming_cb := false, pending_callbacks := 0,
         streamed := [], completed := none }⟩ true).rs.completed
      = some [] ∧
    some ([] : List Nat) ≠ some [116, 97, 105, 108] := by
  decide

/-- C4 (amended): invoking `read_until_close(cb, stream_cb)` on an
already-closed stream consumes the entire buffer synchronously: with a
streaming callback the whole buffered payload goes to the streaming callback
and the completion callback receives an empty payload; without one the
completion callback receives the whole buffered payload.  The until-close mode
is not stored, no readiness interest is registered, and the buffer is left
empty. -/
theorem read_until_close_closed_spec (s : InlineState) (hasStreaming : Bool)
    (hclosed : s.socket_open = false)
    (hsize : s.rs.read_buffer_size = s.rs.read_buffer.flatten.length)
    (hstr : s.rs.streamed = [])
    (huc : s.rs.read_until_close = false) :
    (hasStreaming = true →
      (read_until_close s hasStreaming).rs.streamed = [s.rs.read_buffer.flatten] ∧
      (read_until_close s hasStreaming).rs.completed = some []) ∧
    (hasStreaming = false →
      (read_until_close s hasStreaming).rs.completed = some s.rs.read_buffer.flatten) ∧
    (read_until_close s hasStreaming).rs.read_until_close = false ∧
    (read_until_close s hasStreaming).state = s.state ∧
    (read_until_close s hasStreaming).rs.read_buffer.flatten = [] := by
  obtain ⟨so, st, rs⟩ := s
  obtain ⟨buf, size, rdel, rbytes, ruc, rcb, scb, pend, strm, comp⟩ := rs
  simp only at hclosed hsize hstr huc
  subst hclosed hsize hstr huc
  cases hasStreaming with
  | false =>
    simp only [read_until_close]
    rw [if_pos trivial, if_neg (by simp : ¬ (false = true))]
    refine ⟨by simp, fun _ => ?_, ?_, rfl, ?_⟩
    · show some ( _consume _ _).1 = _
      rw [consume_payload]
      show some ((buf.flatten).take buf.flatten.length) = _
      rw [List.take_length]
    · show ( _consume _ _).2.read_until_close = false
      rw [consume_ruc]
    · show ( _consume _ _).2.read_buffer.flatten = []
      rw [consume_buffer]
      show (buf.flatten).drop buf.flatten.length = []
      rw [List.drop_length]
  | true =>
    simp only [read_until_close]
    rw [if_pos trivial, if_pos trivial]
    have hp1 : ( _consume
        { read_buffer := buf, read_buffer_size := buf.flatten.length,
          read_delimiter := rdel, read_bytes := rbytes, read_until_close := false,
          read_cb := true, streaming_cb := true, pending_callbacks := pend,
          streamed := [], completed := comp } buf.flatten.length).1
        = buf.flatten := by
      rw [consume_payload]
      show (buf.flatten).take buf.flatten.length = _
      rw [List.take_length]
    have hb1 : ( _consume
        { read_buffer := buf, read_buffer_size := buf.flatten.length,
          read_delimiter := rdel, read_bytes := rbytes, read_until_close := false,
          read_cb := true, streaming_cb := true, pending_callbacks := pend,
          streamed := [], completed := comp } buf.flatten.length).2.read_buffer.flatten
        = [] := by
      rw [consume_buffer]
      show (buf.flatten).drop buf.flatten.length = _
      rw [List.drop_length]
    refine ⟨fun _ => ⟨?_, ?_⟩, by simp, ?_, rfl, ?_⟩
    · show ( _consume _ _).2.streamed = [buf.flatten]
      rw [consume_streamed]
      show ( _consume _ _).2.streamed ++ [( _consume _ _).1] = [buf.flatten]
      rw [consume_streamed, hp1]
      rfl
    · show some ( _consume _ _).1 = some []
      rw [consume_payload]
      show some ((( _consume _ _).2.read_buffer.flatten).take _) = some ([] : List Nat)
      rw [hb1, List.take_nil]
    · show ( _consume _ _).2.read_until_close = false
      rw [consume_ruc]
      show ( _consume _ _).2.read_until_close = false
      rw [consume_ruc]
    · show ( _consume _ _).2.read_buffer.flatten = []
      rw [consume_buffer]
      show (( _consume _ _).2.read_buffer.flatten).drop _ = []
      rw [hb1, List.drop_nil]

/-- Witness for `read_until_close_closed_spec`: a closed stream buffering
`[1, 2]` with a streaming callback. -/
theorem read_until_close_closed_spec_witness :
    (read_until_close
      ⟨false, none,
       { read_buffer := [[1, 2]], read_buffer_size := 2,
         read_delimiter := none, read_bytes := none, read_until_close := false,
         read_cb := false, streaming_cb := false, pending_callbacks := 0,
         streamed := [], completed := none }⟩ true).rs.streamed = [[1, 2]] ∧
    (read_until_close
      ⟨false, none,
       { read_buffer := [[1, 2]], read_buffer_size := 2,
         read_delimiter := none, read_bytes := none, read_until_close := false,
         read_cb := false, streaming_cb := false, pending_callbacks := 0,
         streamed := [], completed := none }⟩ true).rs.completed = some [] ∧
    (read_until_close
      ⟨false, none,
       { read_buffer := [[1, 2]], read_buffer_size := 2,
         read_delimiter := none, read_bytes := none, read_until_close := false,
         read_cb := false, streaming_cb := false, pending_callbacks := 0,
         streamed := [], completed := none }⟩ true).rs.read_until_close = false :=
  have h := read_until_close_closed_spec
    ⟨false, none,
     { read_buffer := [[1, 2]], read_buffer_size := 2,
       read_delimiter := none, read_bytes := none, read_until_close := false,
       read_cb := false, streaming_cb := false, pending_callbacks := 0,
       streamed := [], completed := none }⟩ true rfl (by decide) rfl rfl
  ⟨(h.1 rfl).1, (h.1 rfl).2, h.2.2.1⟩

theorem maybe_add_error_listener_registers (x : InlineState)
    (hst : x.state = none) (hp : x.rs.pending_callbacks = 0)
    (ho : x.socket_open = true) :
    (maybe_add_error_listener x).state = some ⟨true, false, true⟩ := by
  unfold maybe_add_error_listener
  rw [if_pos ⟨hst, hp⟩, if_neg (by rw [ho]; simp)]
  show add_io_state x.socket_open x.state READ_MASK = some ⟨true, false, true⟩
  rw [ho, hst]
  decide

/-- C5 counterexample, in two parts.  (a) `read_until` armed on an open
stream whose registered interest mask is already WRITE|ERROR (e.g. a
partially-sent `write` is pending): the socket immediately would-blocks, the
delimiter is not found, yet `_maybe_add_error_listener` (lines 436-441) does
nothing because `self._state is not None` — READ is never added before the
operation returns.  (b) `read_bytes(5, cb, stream_cb)` armed on an open,
unregistered stream with 2 bytes buffered: the partial streaming delivery
bumps `pending_callbacks` before the final check, so with the mode still
unsatisfied `_maybe_add_error_listener` again does nothing and no interest at
all is registered before the operation returns. -/
theorem read_interest_counterexample :
    (read_until
      ⟨true, some ⟨false, true, true⟩,
       { read_buffer := [[102, 111, 111]], read_buffer_size := 3,
         read_delimiter := none, read_bytes := none, read_until_close := false,
         read_cb := false, streaming_cb := false, pending_callbacks := 0,
         streamed := [], completed := none }⟩ [13, 10] []).rs.read_delimiter
      = some [13, 10] ∧
    (read_until
      ⟨true, some ⟨false, true, true⟩,
       { read_buffer := [[102, 111, 111]], read_buffer_size := 3,
         read_delimiter := none, read_bytes := none, read_until_close := false,
         read_cb := false, streaming_cb := false, pending_callbacks := 0,
         streamed := [], completed := none }⟩ [13, 10] []).state
      = some ⟨false, true, true⟩ ∧
    (read_bytes
      ⟨true, none,
       { read_buffer := [[1, 2]], read_buffer_size := 2,
         read_delimiter := none, read_bytes := none, read_until_close := false,
         read_cb := false, streaming_cb := false, pending_callbacks := 0,
         streamed := [], completed := none }⟩ 5 true []).rs.read_bytes
      = some 3 ∧
    (read_bytes
      ⟨true, none,
       { read_buffer := [[1, 2]], read_buffer_size := 2,
         read_delimiter := none, read_bytes := none, read_until_close := false,
         read_cb := false, streaming_cb := false, pending_callbacks := 0,
         streamed := [], completed := none }⟩ 5 true []).rs.pending_callbacks
      = 1 ∧
    (read_bytes
      ⟨true, none,
       { read_buffer := [[1, 2]], read_buffer_size := 2,
         read_delimiter := none, read_bytes := none, read_until_close := false,
         read_cb := false, streaming_cb := false, pending_callbacks := 0,
         streamed := [], completed := none }⟩ 5 true []).state
      = none := by
  decide

/-- C5 (amended): every modelled `read_*` arming attempts the inline drain of
`_try_inline_read`.  For any armed state on an open stream, if both dispatch
attempts leave the mode unsatisfied after the socket drained to would-block,
then READ (together with ERROR) is registered before the operation returns
provided the stream has no registered interest mask and no callbacks are
pending when `_maybe_add_error_listener` runs at the end of the operation.
The first conjunct is mode-generic (it quantifies over every armed read
state); the second and third state the `read_until(d, cb)` and
`read_bytes(n, cb, stream_cb)` instances explicitly. -/
theorem inline_read_registers_read_interest :
    (∀ (s : InlineState) (sock : List (List Nat)),
      s.socket_open = true → s.state = none →
      (read_from_buffer s.rs).2 = false →
      (read_from_buffer (sock.foldl drainAppend (read_from_buffer s.rs).1)).2
        = false →
      (read_from_buffer (sock.foldl drainAppend
        (read_from_buffer s.rs).1)).1.pending_callbacks = 0 →
      ( _try_inline_read s sock).state = some ⟨true, false, true⟩) ∧
    (∀ (s : InlineState) (d : List Nat) (sock : List (List Nat)),
      s.socket_open = true → s.state = none →
      (read_from_buffer
        { s.rs with read_cb := true, read_delimiter := some d }).2 = false →
      (read_from_buffer (sock.foldl drainAppend (read_from_buffer
        { s.rs with read_cb := true, read_delimiter := some d }).1)).2 = false →
      (read_from_buffer (sock.foldl drainAppend (read_from_buffer
        { s.rs with read_cb := true, read_delimiter := some d }).1)).1.pending_callbacks = 0 →
      (read_until s d sock).state = some ⟨true, false, true⟩) ∧
    (∀ (s : InlineState) (n : Nat) (hasStreaming : Bool) (sock : List (List Nat)),
      s.socket_open = true → s.state = none →
      (read_from_buffer
        { s.rs with read_cb := true, read_bytes := some n,
                    streaming_cb := hasStreaming }).2 = false →
      (read_from_buffer (sock.foldl drainAppend (read_from_buffer
        { s.rs with read_cb := true, read_bytes := some n,
                    streaming_cb := hasStreaming }).1)).2 = false →
      (read_from_buffer (sock.foldl drainAppend (read_from_buffer
        { s.rs with read_cb := true, read_bytes := some n,
                    streaming_cb := hasStreaming }).1)).1.pending_callbacks = 0 →
      (read_bytes s n hasStreaming sock).state = some ⟨true, false, true⟩) := by
  have hgen : ∀ (s : InlineState) (sock : List (List Nat)),
      s.socket_open = true → s.state = none →
      (read_from_buffer s.rs).2 = false →
      (read_from_buffer (sock.foldl drainAppend (read_from_buffer s.rs).1)).2
        = false →
      (read_from_buffer (sock.foldl drainAppend
        (read_from_buffer s.rs).1)).1.pending_callbacks = 0 →
      ( _try_inline_read s sock).state = some ⟨true, false, true⟩ := by
    intro s sock hopen hstate h1 h2 hpend
    simp only [ _try_inline_read]
    rw [if_neg (by simp [h1]), if_neg (by rw [hopen]; simp),
        if_neg (by simp [h2])]
    exact maybe_add_error_listener_registers _ hstate hpend hopen
  refine ⟨hgen, ?_, ?_⟩
  · intro s d sock hopen hstate h1 h2 hpend
    exact hgen
      { s with rs := { s.rs with read_cb := true, read_delimiter := some d } }
      sock hopen hstate h1 h2 hpend
  · intro s n hasStreaming sock hopen hstate h1 h2 hpend
    exact hgen
      { s with rs := { s.rs with read_cb := true, read_bytes := some n,
                                 streaming_cb := hasStreaming } }
      sock hopen hstate h1 h2 hpend

/-- Witness for `inline_read_registers_read_interest`: an open, unregistered,
idle stream buffering `"f"` armed via `read_until` for `"\x5cr\x5cn"`, and the
same stream buffering `[1, 2]` armed via `read_bytes(5, cb)` without a
streaming callback; the socket would-blocks at once and READ|ERROR is
registered in both cases. -/
theorem inline_read_registers_read_interest_witness :
    (read_until
      ⟨true, none,
       { read_buffer := [[102]], read_buffer_size := 1,
         read_delimiter := none, read_bytes := none, read_until_close := false,
         read_cb := false, streaming_cb := false, pending_callbacks := 0,
         streamed := [], completed := none }⟩ [13, 10] []).state
      = some ⟨true, false, true⟩ ∧
    (read_bytes
      ⟨true, none,
       { read_buffer := [[1, 2]], read_buffer_size := 2,
         read_delimiter := none, read_bytes := none, read_until_close := false,
         read_cb := false, streaming_cb := false, pending_callbacks := 0,
         streamed := [], completed := none }⟩ 5 false []).state
      = some ⟨true, false, true⟩ :=
  ⟨inline_read_registers_read_interest.2.1
    ⟨true, none,
     { read_buffer := [[102]], read_buffer_size := 1,
       read_delimiter := none, read_bytes := none, read_until_close := false,
       read_cb := false, streaming_cb := false, pending_callbacks := 0,
       streamed := [], completed := none }⟩ [13, 10] []
    rfl rfl (by decide) (by decide) (by decide),
   inline_read_registers_read_interest.2.2
    ⟨true, none,
     { read_buffer := [[1, 2]], read_buffer_size := 2,
       read_delimiter := none, read_bytes := none, read_until_close := false,
       read_cb := false, streaming_cb := false, pending_callbacks := 0,
       streamed := [], completed := none }⟩ 5 false []
    rfl rfl (by decide) (by decide) (by decide)⟩

/-- C6: a socket read whose chunk makes the size counter reach or exceed
`max_buffer_size` makes `_read_to_buffer` close the stream and raise the
buffer-overflow error; reads keeping the counter below the limit never raise,
and a no-data outcome never raises. -/
theorem read_to_buffer_overflow_spec (max_buffer_size : Nat)
    (buf : List (List Nat)) (size : Nat) (c : List Nat) :
    (( _read_to_buffer max_buffer_size buf size (some c)).raised = true
      ↔ size + c.length ≥ max_buffer_size) ∧
    (( _read_to_buffer max_buffer_size buf size (some c)).raised = true →
      ( _read_to_buffer max_buffer_size buf size (some c)).closed = true) ∧
    ( _read_to_buffer max_buffer_size buf size (some c)).read_buffer
      = buf ++ [c] ∧
    ( _read_to_buffer max_buffer_size buf size (some c)).read_buffer_size
      = size + c.length ∧
    ( _read_to_buffer max_buffer_size buf size none).raised = false := by
  simp only [ _read_to_buffer]
  by_cases h : size + c.length ≥ max_buffer_size
  · rw [if_pos h]
    simp [h]
  · rw [if_neg h]
    simp [h]

/-- Witness for `read_to_buffer_overflow_spec`: `max_buffer_size = 8` and a
10-byte chunk arriving on an empty buffer (scenario 5 of the specification),
plus a 1-byte chunk staying below the limit. -/
theorem read_to_buffer_overflow_spec_witness :
    ( _read_to_buffer 8 [] 0 (some [0, 1, 2, 3, 4, 5, 6, 7, 8, 9])).raised = true ∧
    ( _read_to_buffer 8 [] 0 (some [0, 1, 2, 3, 4, 5, 6, 7, 8, 9])).closed = true ∧
    ( _read_to_buffer 8 [] 0 (some [1])).raised = false :=
  have h10 := read_to_buffer_overflow_spec 8 [] 0 [0, 1, 2, 3, 4, 5, 6, 7, 8, 9]
  have h1 := read_to_buffer_overflow_spec 8 [] 0 [1]
  have hr : ( _read_to_buffer 8 [] 0 (some [0, 1, 2, 3, 4, 5, 6, 7, 8, 9])).raised = true :=
    h10.1.mpr (by decide)
  ⟨hr, h10.2.1 hr, by
    cases hq : ( _read_to_buffer 8 [] 0 (some [1])).raised
    · rfl
    · exact absurd (h1.1.mp hq) (by decide)⟩

theorem headD_take_flatten (l : List (List Nat)) (n : Nat)
    (h : n ≤ (l.headD []).length) : (l.headD []).take n = l.flatten.take n := by
  cases l with
  | nil => simp
  | cons a t =>
    simp only [List.headD, List.flatten_cons]
    rw [List.take_append_eq_append_take]
    simp only [List.headD] at h
    have h0 : n - a.length = 0 := by omega
    rw [h0, List.take_zero, List.append_nil]

theorem submitChunk_frozen (s : WriteState) (hf : s.write_buffer_frozen = true) :
    submitChunk s = s.write_buffer.headD [] := by
  unfold submitChunk
  rw [hf, if_pos rfl]

theorem submitChunk_unfrozen (s : WriteState) (hf : s.write_buffer_frozen = false) :
    submitChunk s = s.write_buffer.flatten.take WRITE_BUFFER_CHUNK_SIZE := by
  unfold submitChunk
  rw [hf, if_neg (by simp : ¬ (false = true))]
  exact merge_prefix_headD s.write_buffer WRITE_BUFFER_CHUNK_SIZE (by decide)

/-- C7: in the `_handle_write` loop, a send of zero bytes and a would-block
both freeze the write buffer and stop the loop with the submitted chunk left
intact as the first chunk; while frozen, the submitted chunk is the first
write-buffer chunk, unmerged and unsplit; a send of `n > 0` bytes clears the
freeze flag and removes exactly the written `n`-byte prefix (the first `n`
bytes of the submitted chunk) from the write buffer. -/
theorem handle_write_partial_send_spec (s : WriteState) (n : Nat)
    (hn : 0 < n) (hn2 : n ≤ (submitChunk s).length) :
    (handle_write_step s .wouldblock).1.write_buffer_frozen = true ∧
    (handle_write_step s .wouldblock).2 = false ∧
    (handle_write_step s .wouldblock).1.write_buffer.headD [] = submitChunk s ∧
    (handle_write_step s (.sent 0)).1.write_buffer_frozen = true ∧
    (handle_write_step s (.sent 0)).2 = false ∧
    (handle_write_step s (.sent 0)).1.write_buffer.headD [] = submitChunk s ∧
    (s.write_buffer_frozen = true → submitChunk s = s.write_buffer.headD []) ∧
    (handle_write_step s (.sent n)).1.write_buffer_frozen = false ∧
    (handle_write_step s (.sent n)).1.write_buffer.flatten
      = s.write_buffer.flatten.drop n ∧
    (submitChunk s).take n = s.write_buffer.flatten.take n := by
  obtain ⟨m, rfl⟩ : ∃ m, n = m + 1 := ⟨n - 1, by omega⟩
  refine ⟨rfl, rfl, ?_, rfl, rfl, ?_, fun hf => submitChunk_frozen s hf, rfl, ?_, ?_⟩
  · simp only [handle_write_step, submitChunk]
    cases hfz : s.write_buffer_frozen <;> simp
  · simp only [handle_write_step, submitChunk]
    cases hfz : s.write_buffer_frozen <;> simp
  · simp only [handle_write_step]
    cases hfz : s.write_buffer_frozen with
    | true =>
      rw [if_neg (by simp)]
      exact merge_prefix_tail_flatten s.write_buffer (m + 1) (by omega)
    | false =>
      rw [if_pos (by simp)]
      rw [merge_prefix_tail_flatten _ (m + 1) (by omega), merge_prefix_flatten]
  · cases hfz : s.write_buffer_frozen with
    | true =>
      rw [submitChunk_frozen s hfz] at hn2 ⊢
      exact headD_take_flatten s.write_buffer (m + 1) hn2
    | false =>
      rw [submitChunk_unfrozen s hfz] at hn2 ⊢
      rw [List.length_take] at hn2
      rw [List.take_take]
      have : min (m + 1) WRITE_BUFFER_CHUNK_SIZE = m + 1 := by omega
      rw [this]

/-- Witness for `handle_write_partial_send_spec`: an unfrozen write buffer
holding the chunks `[1, 2, 3]` and `[4]`, with a send of 2 bytes. -/
theorem handle_write_partial_send_spec_witness :
    (handle_write_step
      ⟨true, false, [[1, 2, 3], [4]], false, false, none, 0, false⟩
      .wouldblock).1.write_buffer_frozen = true ∧
    (handle_write_step
      ⟨true, false, [[1, 2, 3], [4]], false, false, none, 0, false⟩
      (.sent 2)).1.write_buffer.flatten
      = (⟨true, false, [[1, 2, 3], [4]], false, false, none, 0, false⟩
          : WriteState).write_buffer.flatten.drop 2 ∧
    (submitChunk ⟨true, false, [[1, 2, 3], [4]], false, false, none, 0, false⟩).take 2
      = (⟨true, false, [[1, 2, 3], [4]], false, false, none, 0, false⟩
          : WriteState).write_buffer.flatten.take 2 :=
  have h := handle_write_partial_send_spec
    ⟨true, false, [[1, 2, 3], [4]], false, false, none, 0, false⟩ 2
    (by decide) (by decide)
  ⟨h.1, h.2.2.2.2.2.2.2.2.1, h.2.2.2.2.2.2.2.2.2⟩

theorem maybe_run_close_callback_inv (s : CloseState)
    (h : s.fired ≤ 1 ∧ (s.close_cb = true → s.fired = 0)) :
    (maybe_run_close_callback s).fired ≤ 1 ∧
    ((maybe_run_close_callback s).close_cb = true →
      (maybe_run_close_callback s).fired = 0) := by
  unfold maybe_run_close_callback
  by_cases hg : s.socket_open = false ∧ s.close_cb = true ∧ s.pending_callbacks = 0
  · rw [if_pos hg]
    have h0 : s.fired = 0 := h.2 hg.2.1
    exact ⟨by simp [h0], by simp⟩
  · rw [if_neg hg]
    exact h

theorem closeStep_inv (s : CloseState) (op : CloseOp)
    (h : s.fired ≤ 1 ∧ (s.close_cb = true → s.fired = 0)) :
    (closeStep s op).fired ≤ 1 ∧
    ((closeStep s op).close_cb = true → (closeStep s op).fired = 0) := by
  cases op with
  | close => exact maybe_run_close_callback_inv _ ⟨h.1, h.2⟩
  | schedule => exact h
  | runWrapper =>
    simp only [closeStep]
    by_cases hp : s.pending_callbacks = 0
    · rw [if_pos hp]
      exact maybe_run_close_callback_inv s h
    · rw [if_neg hp]
      exact maybe_run_close_callback_inv _ ⟨h.1, h.2⟩
  | maybeRun => exact maybe_run_close_callback_inv s h

theorem runClose_inv (ops : List CloseOp) : ∀ s : CloseState,
    s.fired ≤ 1 ∧ (s.close_cb = true → s.fired = 0) →
    (runClose s ops).fired ≤ 1 ∧
    ((runClose s ops).close_cb = true → (runClose s ops).fired = 0) := by
  induction ops with
  | nil => intro s h; exact h
  | cons op ops ih => intro s h; exact ih (closeStep s op) (closeStep_inv s op h)

/-- C8: for every sequence of operations the close callback is scheduled at
most once, and `_maybe_run_close_callback` fires it only when the socket is
gone, there are no pending callbacks, and a close callback is installed. -/
theorem close_callback_once_spec :
    (∀ ops : List CloseOp, (runClose initCloseState ops).fired ≤ 1) ∧
    (∀ s : CloseState, (maybe_run_close_callback s).fired ≠ s.fired →
      s.socket_open = false ∧ s.pending_callbacks = 0 ∧ s.close_cb = true) := by
  constructor
  · intro ops
    exact (runClose_inv ops initCloseState ⟨by decide, fun _ => rfl⟩).1
  · intro s hne
    unfold maybe_run_close_callback at hne
    by_cases hg : s.socket_open = false ∧ s.close_cb = true ∧ s.pending_callbacks = 0
    · exact ⟨hg.1, hg.2.2, hg.2.1⟩
    · rw [if_neg hg] at hne
      exact absurd rfl hne

/-- Witness for `close_callback_once_spec`: a close, a wrapper run and a
second close fire the callback exactly once; the firing state of a direct
`_maybe_run_close_callback` call satisfies the guard. -/
theorem close_callback_once_spec_witness :
    (runClose initCloseState [.close, .runWrapper, .close]).fired ≤ 1 ∧
    ((⟨false, true, 0, 0⟩ : CloseState).socket_open = false ∧
     (⟨false, true, 0, 0⟩ : CloseState).pending_callbacks = 0 ∧
     (⟨false, true, 0, 0⟩ : CloseState).close_cb = true) :=
  ⟨close_callback_once_spec.1 [.close, .runWrapper, .close],
   close_callback_once_spec.2 ⟨false, true, 0, 0⟩ (by decide)⟩

theorem do_ssl_handshake_preserves (s : SSLState) (o : HandshakeOutcome)
    (ho : o ≠ .success) :
    (do_ssl_handshake s o).ssl_accepting = s.ssl_accepting ∧
    (do_ssl_handshake s o).connect_cb_scheduled = s.connect_cb_scheduled := by
  cases o with
  | success => exact absurd rfl ho
  | wantRead => exact ⟨rfl, rfl⟩
  | wantWrite => exact ⟨rfl, rfl⟩
  | eofError => exact ⟨rfl, rfl⟩
  | sslError => exact ⟨rfl, rfl⟩
  | connReset => exact ⟨rfl, rfl⟩

theorem runHandshake_no_success (outs : List HandshakeOutcome) : ∀ s : SSLState,
    HandshakeOutcome.success ∉ outs →
    (runHandshake s outs).ssl_accepting = s.ssl_accepting ∧
    (runHandshake s outs).connect_cb_scheduled = s.connect_cb_scheduled := by
  induction outs with
  | nil => intro s _; exact ⟨rfl, rfl⟩
  | cons o os ih =>
    intro s hmem
    have ho : o ≠ .success := by
      intro hc
      subst hc
      exact hmem (List.mem_cons_self _ _)
    have h1 := do_ssl_handshake_preserves s o ho
    have h2 := ih (do_ssl_handshake s o) (fun hc => hmem (List.mem_cons_of_mem _ hc))
    exact ⟨h2.1.trans h1.1, h2.2.trans h1.2⟩

/-- C9: a needs-read outcome of `_do_ssl_handshake` sets `handshake_reading`
and leaves `ssl_accepting` unchanged (hence true); no outcome other than
success changes `ssl_accepting` or schedules the stashed connect callback, so
over any outcome sequence without a success the stashed user connect callback
is never scheduled and the stream keeps accepting. -/
theorem ssl_handshake_spec :
    (∀ s : SSLState, (do_ssl_handshake s .wantRead).handshake_reading = true ∧
      (do_ssl_handshake s .wantRead).ssl_accepting = s.ssl_accepting) ∧
    (∀ (s : SSLState) (o : HandshakeOutcome), o ≠ .success →
      (do_ssl_handshake s o).ssl_accepting = s.ssl_accepting ∧
      (do_ssl_handshake s o).connect_cb_scheduled = s.connect_cb_scheduled) ∧
    (∀ outs : List HandshakeOutcome, HandshakeOutcome.success ∉ outs →
      (runHandshake initSSLState outs).connect_cb_scheduled = false ∧
      (runHandshake initSSLState outs).ssl_accepting = true) := by
  refine ⟨fun s => ⟨rfl, rfl⟩, fun s o ho => do_ssl_handshake_preserves s o ho, ?_⟩
  intro outs hmem
  have h := runHandshake_no_success outs initSSLState hmem
  exact ⟨h.2, h.1⟩

/-- Witness for `ssl_handshake_spec`: the initial SSL state with a handshake
that wants read, then wants write, never succeeding. -/
theorem ssl_handshake_spec_witness :
    (do_ssl_handshake initSSLState .wantRead).handshake_reading = true ∧
    (do_ssl_handshake initSSLState .wantRead).ssl_accepting
      = initSSLState.ssl_accepting ∧
    (runHandshake initSSLState [.wantRead, .wantWrite]).connect_cb_scheduled
      = false ∧
    (runHandshake initSSLState [.wantRead, .wantWrite]).ssl_accepting = true :=
  ⟨(ssl_handshake_spec.1 initSSLState).1,
   (ssl_handshake_spec.2.1 initSSLState .wantRead (by decide)).1,
   (ssl_handshake_spec.2.2 [.wantRead, .wantWrite] (by decide)).1,
   (ssl_handshake_spec.2.2 [.wantRead, .wantWrite] (by decide)).2⟩

theorem handle_write_loop_empty (sends : List SendResult) (s : WriteState)
    (h : s.write_buffer = []) : handle_write_loop s sends = s := by
  cases sends with
  | nil => rfl
  | cons r rs =>
    simp only [handle_write_loop]
    rw [if_pos h]

/-- C10: `write(data, cb)` with empty data on an open, non-connecting stream
whose write buffer is empty appends nothing to the write buffer and schedules
the callback immediately through the drained-buffer branch of `_handle_write`
(lines 419-422), without any socket send. -/
theorem write_empty_data_spec (s : WriteState) (sends : List SendResult)
    (hopen : s.socket_open = true) (hconn : s.connecting = false)
    (hbuf : s.write_buffer = []) :
    write s [] true sends =
      some { s with write_cb := false, write_completed := true,
                    pending_callbacks := s.pending_callbacks + 1 } := by
  simp only [write]
  rw [if_neg (by rw [hopen]; simp), if_neg (by simp : ¬ (([] : List Nat) ≠ [])),
      if_pos hconn]
  simp only [ _handle_write]
  rw [handle_write_loop_empty sends { s with write_cb := true } hbuf,
      if_pos (⟨hbuf, rfl⟩ : _ ∧ _), if_neg (fun hc => hc hbuf)]
  simp only [maybe_add_error_listener_w]
  rw [if_neg (fun hq => Nat.succ_ne_zero _ hq.2)]

/-- Witness for `write_empty_data_spec`: an open, idle stream with an empty
write buffer. -/
theorem write_empty_data_spec_witness :
    write ⟨true, false, [], false, false, none, 0, false⟩ [] true [] =
      some ⟨true, false, [], false, false, none, 1, true⟩ :=
  (write_empty_data_spec ⟨true, false, [], false, false, none, 0, false⟩ []
    rfl rfl rfl).trans (by decide)
